import Mathlib

/-!
# Verification of the zanD danmaku pipeline

Shallow embedding of the algorithmic core of the repository:

* the timeline lane scheduler and ASS time encoder of
  `src/utils/utils.ts` (`class AssGenerator`: `generateEvents`,
  `timeToAss`, constructor `maxLines` computation),
* the retry helper `retry` of `src/utils/utils.ts` and the sequential
  resource download loop `ZanLiveDownloader.downloadResources` /
  `downloadResource` of `src/unnamed/part_001`,
* the avatar / page-resource batch download of
  `src/utils/resource-downloader.ts` (`ResourceDownloader.downloadAvatars`,
  `ResourceDownloader.downloadPageResources`).

Every definition is translated from the TypeScript source; doc comments
name the source location.  JavaScript numbers that only ever hold integral
millisecond values are modelled as `Int` (timestamps may be negative after
subtracting the base time) or `Nat`; the two configured fractions
`displayAreaRatio` and `lineSpacing` are modelled as exact rationals.
-/

namespace ZanD

/-! ## Data model -/

/-- A comment as seen by the scheduler (`src/utils/types.ts`, `Comment`):
`createdAt` is `new Date(comment.created_at).getTime()` in epoch
milliseconds, `text` is the optional `content?.text` field. -/
structure RawComment where
  createdAt : Int
  text : Option String
  deriving Repr, DecidableEq

/-- The lane assignment emitted for one scheduled comment
(spec `LaneAssignment`): the chosen lane, the display interval
`[displayStart, displayEnd)` in milliseconds relative to the first
comment, and the rendered message. -/
structure Assignment where
  lane : Nat
  displayStart : Int
  displayEnd : Int
  text : String
  deriving Repr, DecidableEq

/-- A comment's message is rendered iff `content?.text` is present and
non-empty (`src/utils/utils.ts` line 608-609:
`const message = comment.content?.text; if (!message) return;`). -/
def hasText (c : RawComment) : Bool :=
  match c.text with
  | some s => !(s = "")
  | none => false

/-! ## Lane selection (`src/utils/utils.ts` lines 616-640) -/

/-- The free-lane scan (lines 621-627): return the index of the first
lane whose `nextFreeAtMs` is `≤ currentTime`, or `none`.  The tracker
list always has length `maxLines`, so scanning the list is the loop
`for (i = 0; i < maxLines; i++)`. -/
def freeScan (t : Int) : List Int → Option Nat
  | [] => none
  | v :: rest => if v ≤ t then some 0 else (freeScan t rest).map (· + 1)

/-- The fallback scan (lines 630-640): sweep the remaining lanes keeping
the first index whose `nextFreeAtMs` is strictly smaller than the best
seen so far.  `i` is the index of the head of the remaining list, `b`
the current `(selectedLine, earliestEndTime)` pair. -/
def scanMin : List Int → Nat → Nat × Int → Nat × Int
  | [], _, b => b
  | v :: rest, i, b => scanMin rest (i + 1) (if v < b.2 then (i, v) else b)

/-- Lane selection for an event arriving at relative time `t`
(lines 616-640): first lane with `nextFreeAtMs ≤ t` if one exists,
otherwise the fallback sweep starting from
`selectedLine = 0, earliestEndTime = lineTracker[0] || 0`. -/
def selectLane (tracker : List Int) (t : Int) : Nat :=
  match freeScan t tracker with
  | some i => i
  | none => (scanMin tracker.tail 1 (0, tracker.headD 0)).1

/-- The occupancy update (lines 643-644):
`lineTracker[selectedLine] = Math.max(currentTime, lineTracker[selectedLine] || 0) + danmakuDuration`. -/
def updateTracker (speed : Int) (tracker : List Int) (L : Nat) (t : Int) : List Int :=
  tracker.set L (max t (tracker.getD L 0) + speed)

/-- The per-comment loop of `AssGenerator.generateEvents`
(`src/utils/utils.ts` lines 607-648): comments without a message are
skipped, every other comment is assigned the lane `selectLane` picks for
its relative time and the tracker entry of that lane is bumped by
`updateTracker`.  `speed` is `this.speed * 1000` (the dwell duration in
ms) and `firstTime` the epoch time of the first comment. -/
def runScheduler (speed firstTime : Int) (tracker : List Int) :
    List RawComment → List Assignment
  | [] => []
  | c :: rest =>
    match c.text with
    | none => runScheduler speed firstTime tracker rest
    | some msg =>
      if msg = "" then runScheduler speed firstTime tracker rest
      else
        let t := c.createdAt - firstTime
        let L := selectLane tracker t
        { lane := L, displayStart := t, displayEnd := t + speed, text := msg } ::
          runScheduler speed firstTime (updateTracker speed tracker L t) rest

/-- Scheduler configuration: `maxLines` (computed in the constructor) and
the dwell duration `speedMs = this.speed * 1000` (the source fixes
`this.speed = 8`, hence `speedMs = 8000`). -/
structure SchedCfg where
  maxLines : Nat
  speedMs : Int
  deriving Repr, DecidableEq

/-- The base time subtracted from every comment's epoch time: the first
comment's epoch time (`src/utils/utils.ts` line 605,
`comments[0]?.created_at || 0`, `0` for an empty list). -/
def baseTime (comments : List RawComment) : Int :=
  match comments.head? with
  | some c => c.createdAt
  | none => 0

/-- Function `AssGenerator.generateEvents` (`src/utils/utils.ts` lines 600-651),
abstracted to the list of lane assignments it emits one `Dialogue` line
for: the tracker starts as `new Array(maxLines).fill(0)`. -/
def generateEvents (cfg : SchedCfg) (comments : List RawComment) : List Assignment :=
  runScheduler cfg.speedMs (baseTime comments) (List.replicate cfg.maxLines 0) comments

/-! ## ASS time encoding (`src/utils/utils.ts` lines 559-568) -/

/-- JavaScript `String.prototype.padStart(n, c)`. -/
def padStart (s : String) (n : Nat) (c : Char) : String :=
  String.mk (List.replicate (n - s.length) c) ++ s

/-- Function `AssGenerator.timeToAss` (`src/utils/utils.ts` lines 559-568) for a
non-negative millisecond offset. -/
def timeToAss (timestamp : Nat) : String :=
  let totalCentiseconds := timestamp / 10
  let hours := totalCentiseconds / 360000
  let minutes := totalCentiseconds % 360000 / 6000
  let seconds := totalCentiseconds % 6000 / 100
  let centiseconds := totalCentiseconds % 100
  padStart (toString hours) 1 '0' ++ ":" ++ padStart (toString minutes) 2 '0' ++
    ":" ++ padStart (toString seconds) 2 '0' ++ "." ++
    padStart (toString centiseconds) 2 '0'

/-! ## `maxLines` computation (`src/utils/utils.ts` lines 503-532) -/

/-- The constructor's lane-count computation (lines 519-528):
`lineHeight = fontSize + fontSize * lineSpacing`,
`displayAreaHeight = videoHeight * displayAreaRatio`,
`maxLines = Math.floor(displayAreaHeight / lineHeight)`, clamped to `1`
when the floor is below `1`.  `videoHeight = 1080` and `fontSize = 24`
are fixed by the constructor; the two fractions are exact rationals. -/
def assMaxLines ( displayAreaRatio lineSpacing : ℚ) : Int :=
  let fontSize : ℚ := 24
  let videoHeight : ℚ := 1080
  let lineHeight := fontSize + fontSize * lineSpacing
  let displayAreaHeight := videoHeight * displayAreaRatio
  let m := (displayAreaHeight / lineHeight).floor
  if m < 1 then 1 else m

/-- Decidable trace predicate: the run never hits the forced-reuse
fallback, i.e. every scheduled comment finds a fully free lane.  It
mirrors `runScheduler` step by step. -/
def NoForcedReuse (speed firstTime : Int) (tracker : List Int) :
    List RawComment → Bool
  | [] => true
  | c :: rest =>
    match c.text with
    | none => NoForcedReuse speed firstTime tracker rest
    | some msg =>
      if msg = "" then NoForcedReuse speed firstTime tracker rest
      else
        let t := c.createdAt - firstTime
        (freeScan t tracker).isSome &&
          NoForcedReuse speed firstTime
            (updateTracker speed tracker (selectLane tracker t) t) rest

/-- Unfolding lemma for `NoForcedReuse` on a skipped comment. -/
theorem noForcedReuse_cons_skip (speed firstTime : Int) (tracker : List Int)
    (c : RawComment) (rest : List RawComment)
    (hc : c.text = none ∨ c.text = some "") :
    NoForcedReuse speed firstTime tracker (c :: rest) =
      NoForcedReuse speed firstTime tracker rest := by
  rcases hc with hc | hc <;> simp [NoForcedReuse, hc]

/-- Unfolding lemma for `NoForcedReuse` on a scheduled comment. -/
theorem noForcedReuse_cons_msg (speed firstTime : Int) (tracker : List Int)
    (c : RawComment) (rest : List RawComment) (msg : String)
    (hc : c.text = some msg) (hm : msg ≠ "") :
    NoForcedReuse speed firstTime tracker (c :: rest) =
      ((freeScan (c.createdAt - firstTime) tracker).isSome &&
        NoForcedReuse speed firstTime
          (updateTracker speed tracker
            (selectLane tracker (c.createdAt - firstTime))
            (c.createdAt - firstTime)) rest) := by
  simp [NoForcedReuse, hc, hm]

/-- Two display intervals `[displayStart, displayEnd)` do not overlap. -/
def IntervalsDisjoint (a b : Assignment) : Prop :=
  a.displayEnd ≤ b.displayStart ∨ b.displayEnd ≤ a.displayStart

instance (a b : Assignment) : Decidable (IntervalsDisjoint a b) := by
  unfold IntervalsDisjoint
  infer_instance

/-- The spec's per-lane invariant, as a relation on two assignments. -/
def SameLaneDisjoint (a b : Assignment) : Prop :=
  a.lane = b.lane → IntervalsDisjoint a b

instance (a b : Assignment) : Decidable (SameLaneDisjoint a b) := by
  unfold SameLaneDisjoint
  infer_instance

/-! ## Resource deduplication and batch download
(`src/utils/resource-downloader.ts`, `src/unnamed/part_001`,
`src/utils/utils.ts` lines 19-35) -/

/-- A comment as seen by the avatar downloader
(`ResourceDownloader.downloadAvatars`): its author id and the optional
`userInfo?.profileImageUrl`. -/
structure CommentU where
  user_id : String
  profileImageUrl : Option String
  deriving Repr, DecidableEq

/-- A comment carries a usable avatar URL iff `userInfo?.profileImageUrl`
is present and truthy (non-empty), line 59. -/
def hasAvatarUrl (c : CommentU) : Bool :=
  match c.profileImageUrl with
  | some u => !(u = "")
  | none => false

/-- Lookup in an insertion-ordered association list, modelling
`Map.has` / `Map.get` with string keys. -/
def findUrl : List (String × String) → String → Option String
  | [], _ => none
  | (k, v) :: rest, uid => if k = uid then some v else findUrl rest uid

/-- One step of the `commentData.forEach` loop of `downloadAvatars`
(lines 58-66): if the comment carries a truthy `profileImageUrl` and its
`user_id` is not yet in the map, record `(user_id, url)`; otherwise
leave the map unchanged. -/
def insertAvatar (m : List (String × String)) (c : CommentU) :
    List (String × String) :=
  match c.profileImageUrl with
  | some u =>
    if u = "" then m
    else if (findUrl m c.user_id).isSome then m else m ++ [(c.user_id, u)]
  | none => m

/-- The `avatarUrls` map built by `downloadAvatars` (lines 57-66),
as an insertion-ordered association list. -/
def collectAvatarUrls (comments : List CommentU) : List (String × String) :=
  comments.foldl insertAvatar []

/-- The avatar download jobs issued by `downloadAvatars` (lines 76-90):
one job per map entry `(userId, avatarUrl)`, saved as `userId ++ ".jpg"`
(line 84). -/
def avatarJobs (comments : List CommentU) : List (String × String × String) :=
  (collectAvatarUrls comments).map fun e => (e.1, e.2, e.1 ++ ".jpg")

/-- Reference function for C10: the `profileImageUrl` of the earliest
comment (in input order) of user `uid` that carries a truthy URL. -/
def firstAvatarUrl : List CommentU → String → Option String
  | [], _ => none
  | c :: rest, uid =>
    if c.user_id = uid ∧ hasAvatarUrl c = true then c.profileImageUrl
    else firstAvatarUrl rest uid

/-- Model of `Set.add` on `resourceUrls : Set<string>`
(`src/unnamed/part_001`, `this.resourceUrls.add(url)`), modelled as an
insertion-ordered duplicate-free list. -/
def addUrl (s : List String) (u : String) : List String :=
  if u ∈ s then s else s ++ [u]

/-- The collected `resourceUrls` set, in insertion order
(`Array.from(this.resourceUrls)` in `downloadResources`). -/
def collectResourceUrls (urls : List String) : List String :=
  urls.foldl addUrl []

/-- Model of the `retry` helper (`src/utils/utils.ts` lines 19-35), with the
async operation modelled attempt-indexed (`fn i` is the result of its
`i`-th invocation).  `retryAux fn remaining i` returns the final
outcome (`Except.error none` is the `throw lastError` with no recorded
error when `maxRetries = 0`), the number of attempts made, and the
number of `delay(retryDelay)` sleeps performed between attempts. -/
def retryAux {E A : Type} (fn : Nat → Except E A) :
    Nat → Nat → Except (Option E) A × Nat × Nat
  | 0, _ => (Except.error none, 0, 0)
  | n + 1, i =>
    match fn i with
    | Except.ok a => (Except.ok a, 1, 0)
    | Except.error e =>
      match n with
      | 0 => (Except.error (some e), 1, 0)
      | m + 1 =>
        let r := retryAux fn (m + 1) (i + 1)
        (r.1, r.2.1 + 1, r.2.2 + 1)

/-- Model of `retry(fn, maxRetries, retryDelay)`: attempts start at index 0. -/
def retryModel {E A : Type} (fn : Nat → Except E A) (maxRetries : Nat) :
    Except (Option E) A × Nat × Nat :=
  retryAux fn maxRetries 0

/-- The sequential loop of `ZanLiveDownloader.downloadResources`
(`src/unnamed/part_001` lines 292-320): each URL's (already retried) job
outcome is tallied as a success or a failure, and the loop continues
past failures.  Returns `(successCount, failCount)`. -/
def downloadResourcesTally {E : Type} (outcome : String → Except E Unit)
    (urls : List String) : Nat × Nat :=
  urls.foldl
    (fun sf u =>
      match outcome u with
      | Except.ok _ => (sf.1 + 1, sf.2)
      | Except.error _ => (sf.1, sf.2 + 1))
    (0, 0)

/-- Per-job report of the batch downloads in
`ResourceDownloader.downloadAvatars` / `downloadPageResources`:
each job's promise resolves to `{..., success: true}` or
`{..., success: false, error}` — never rejects. -/
structure JobOutcome where
  url : String
  success : Bool
  deriving Repr, DecidableEq

/-- The batch submit of `downloadPageResources` (lines 122-147) /
`downloadAvatars` (lines 76-92): every job is wrapped in its own
`try`/`catch`, so `Promise.allSettled` yields exactly one fulfilled
outcome per job, `success` reflecting the job's own result. -/
def submitAll {E : Type} (op : String → Except E Unit) (urls : List String) :
    List JobOutcome :=
  urls.map fun u =>
    match op u with
    | Except.ok _ => ⟨u, true⟩
    | Except.error _ => ⟨u, false⟩

/-- Executable floor: `Rat.floor` (used by `assMaxLines`, matching
JavaScript `Math.floor`) agrees with the mathematical floor `⌊·⌋`. -/
theorem ratFloor_eq_intFloor (q : ℚ) : q.floor = ⌊q⌋ :=
  (Rat.floor_def' q).trans Rat.floor_def.symm

/-! ## Helper lemmas for the scheduler -/

/-- Lemma: `runScheduler` emits, in order, exactly one assignment per comment
that carries a non-empty message, with the comment's relative time and
text; the lane bookkeeping never adds or drops events. -/
theorem runScheduler_map_filter (speed firstTime : Int) (tracker : List Int)
    (cs : List RawComment) :
    (runScheduler speed firstTime tracker cs).map
        (fun a => (a.displayStart, a.text)) =
      (cs.filter hasText).map (fun c => (c.createdAt - firstTime, c.text.getD "")) := by
  induction cs generalizing tracker with
  | nil => rfl
  | cons c rest ih =>
    cases hc : c.text with
    | none =>
      have hft : hasText c = false := by simp [hasText, hc]
      simp only [runScheduler, hc, List.filter_cons, hft, Bool.false_eq_true,
        if_false, ih]
    | some msg =>
      by_cases hm : msg = ""
      · subst hm
        have hft : hasText c = false := by simp [hasText, hc]
        simp only [runScheduler, hc, if_pos rfl, if_true, List.filter_cons, hft,
          Bool.false_eq_true, if_false, ih]
      · have hft : hasText c = true := by simp [hasText, hc, hm]
        simp only [runScheduler, hc, if_neg hm, List.filter_cons, hft, if_true,
          List.map_cons, ih, hc, Option.getD_some]

/-- The free-lane scan finds nothing when every lane is still busy. -/
theorem freeScan_eq_none (t : Int) (l : List Int) (h : ∀ v ∈ l, t < v) :
    freeScan t l = none := by
  induction l with
  | nil => rfl
  | cons v rest ih =>
    have hv : ¬ v ≤ t := not_le.mpr (h v (List.mem_cons_self _ _))
    simp [freeScan, hv, ih fun x hx => h x (List.mem_cons_of_mem _ hx)]

/-- A hit of the free-lane scan is an in-range lane that is free. -/
theorem freeScan_eq_some (t : Int) (l : List Int) (i : Nat)
    (h : freeScan t l = some i) : i < l.length ∧ l.getD i 0 ≤ t := by
  induction l generalizing i with
  | nil => simp [freeScan] at h
  | cons v rest ih =>
    by_cases hv : v ≤ t
    · simp only [freeScan, if_pos hv, Option.some.injEq] at h
      subst h
      simpa using hv
    · simp only [freeScan, if_neg hv, Option.map_eq_some'] at h
      obtain ⟨j, hj, rfl⟩ := h
      obtain ⟨h1, h2⟩ := ih j hj
      constructor
      · simpa using h1
      · simpa using h2

/-- Full characterisation of the fallback sweep `scanMin`: starting at
position `i` with current best `b` (whose index lies before `i`), the
sweep returns either `b` or a scanned entry together with its index, its
value is a lower bound of `b.2` and of every scanned entry, it improves
strictly whenever it moves off `b`, and every entry strictly before the
returned index is strictly larger than the returned value. -/
theorem scanMin_spec (l : List Int) (i : Nat) (b : Nat × Int) (hb : b.1 < i) :
    (scanMin l i b = b ∨
      ∃ k, k < l.length ∧ scanMin l i b = (i + k, l.getD k 0)) ∧
    (scanMin l i b).2 ≤ b.2 ∧
    (∀ v ∈ l, (scanMin l i b).2 ≤ v) ∧
    ((scanMin l i b).1 ≠ b.1 → (scanMin l i b).2 < b.2) ∧
    (∀ k, k < l.length → i + k < (scanMin l i b).1 →
      (scanMin l i b).2 < l.getD k 0) := by
  induction l generalizing i b with
  | nil =>
    refine ⟨Or.inl rfl, le_refl _, by simp, fun h => absurd rfl h, by simp⟩
  | cons v rest ih =>
    by_cases hv : v < b.2
    · have hrec : scanMin (v :: rest) i b = scanMin rest (i + 1) (i, v) := by
        simp [scanMin, hv]
      obtain ⟨s1, s2, s3, s4, s5⟩ := ih (i + 1) (i, v) (by omega)
      rw [hrec]
      refine ⟨?_, ?_, ?_, ?_, ?_⟩
      · rcases s1 with h | ⟨k, hk, hk2⟩
        · exact Or.inr ⟨0, by simp, by simpa using h⟩
        · exact Or.inr ⟨k + 1, by simpa using hk, by rw [hk2]; simp [Prod.ext_iff]; omega⟩
      · exact le_of_lt (lt_of_le_of_lt s2 hv)
      · intro x hx
        rcases List.mem_cons.mp hx with rfl | hx'
        · exact s2
        · exact s3 x hx'
      · intro _
        exact lt_of_le_of_lt s2 hv
      · intro k hk hlt
        match k with
        | 0 =>
          have hne : (scanMin rest (i + 1) (i, v)).1 ≠ i := by omega
          simpa using s4 hne
        | k' + 1 =>
          have := s5 k' (by simpa using hk) (by omega)
          simpa using this
    · have hrec : scanMin (v :: rest) i b = scanMin rest (i + 1) b := by
        simp [scanMin, hv]
      obtain ⟨s1, s2, s3, s4, s5⟩ := ih (i + 1) b (by omega)
      rw [hrec]
      refine ⟨?_, s2, ?_, s4, ?_⟩
      · rcases s1 with h | ⟨k, hk, hk2⟩
        · exact Or.inl h
        · exact Or.inr ⟨k + 1, by simpa using hk, by rw [hk2]; simp [Prod.ext_iff]; omega⟩
      · intro x hx
        rcases List.mem_cons.mp hx with rfl | hx'
        · exact le_trans s2 (not_lt.mp hv)
        · exact s3 x hx'
      · intro k hk hlt
        match k with
        | 0 =>
          rcases s1 with h | ⟨k', _, hk2⟩
          · rw [h] at hlt; omega
          · have hne : (scanMin rest (i + 1) b).1 ≠ b.1 := by rw [hk2]; simp; omega
            have := s4 hne
            simpa using lt_of_lt_of_le this (not_lt.mp hv)
        | k' + 1 =>
          have := s5 k' (by simpa using hk) (by omega)
          simpa using this

/-- When no lane is free, the selected lane is in range, carries the
globally smallest `nextFreeAtMs`, and every lower-indexed lane is
strictly later to free up (lowest-index tie-break). -/
theorem selectLane_no_free (tracker : List Int) (t : Int)
    (hne : 0 < tracker.length)
    (h : ∀ k, k < tracker.length → t < tracker.getD k 0) :
    selectLane tracker t < tracker.length ∧
    (∀ k, k < tracker.length →
      tracker.getD (selectLane tracker t) 0 ≤ tracker.getD k 0) ∧
    ∀ k, k < selectLane tracker t →
      tracker.getD (selectLane tracker t) 0 < tracker.getD k 0 := by
  have hnone : freeScan t tracker = none := by
    apply freeScan_eq_none
    intro v hv
    obtain ⟨k, hk, rfl⟩ := List.mem_iff_getElem.mp hv
    have hk2 := h k hk
    rwa [List.getD_eq_getElem _ _ hk] at hk2
  cases tracker with
  | nil => simp at hne
  | cons v0 rest =>
    have hsel : selectLane (v0 :: rest) t = (scanMin rest 1 (0, v0)).1 := by
      simp [selectLane, hnone]
    obtain ⟨s1, s2, s3, s4, s5⟩ := scanMin_spec rest 1 (0, v0) Nat.one_pos
    have hlen : (scanMin rest 1 (0, v0)).1 < rest.length + 1 := by
      rcases s1 with hr | ⟨k, hk, hr⟩
      · rw [hr]; simp
      · rw [hr]; simp; omega
    have hval : (v0 :: rest).getD (scanMin rest 1 (0, v0)).1 0 =
        (scanMin rest 1 (0, v0)).2 := by
      rcases s1 with hr | ⟨k, hk, hr⟩
      · simp [hr]
      · simp [hr, show 1 + k = k + 1 by omega]
    refine ⟨by simpa using hsel ▸ hlen, ?_, ?_⟩
    · intro k hk
      rw [hsel, hval]
      match k with
      | 0 => simpa using s2
      | k' + 1 =>
        have hk' : k' < rest.length := by simpa using hk
        have hmem : rest.getD k' 0 ∈ rest := by
          rw [List.getD_eq_getElem _ _ hk']
          exact List.getElem_mem _
        simpa using s3 _ hmem
    · intro k hk
      rw [hsel] at hk ⊢
      rw [hval]
      match k with
      | 0 =>
        have hne0 : (scanMin rest 1 (0, v0)).1 ≠ (0, v0).1 := by
          simpa using Nat.pos_iff_ne_zero.mp hk
        simpa using s4 hne0
      | k' + 1 =>
        have hk' : k' < rest.length := by omega
        have := s5 k' hk' (by omega)
        simpa only [show 1 + k' = k' + 1 by omega, List.getD_cons_succ] using this

/-- Lemma: `updateTracker` keeps the number of lanes unchanged. -/
theorem updateTracker_length (speed : Int) (tracker : List Int) (L : Nat) (t : Int) :
    (updateTracker speed tracker L t).length = tracker.length := by
  simp [updateTracker]

/-- The updated lane's `nextFreeAtMs` is `max(currentTime, previous) + speed`. -/
theorem updateTracker_getD_self (speed : Int) (tracker : List Int) (L : Nat)
    (t : Int) (hL : L < tracker.length) :
    (updateTracker speed tracker L t).getD L 0 = max t (tracker.getD L 0) + speed := by
  unfold updateTracker
  rw [List.getD_eq_getElem?_getD, List.getElem?_set_eq_of_lt _ hL, Option.getD_some]

/-- Lanes other than the updated one keep their `nextFreeAtMs`. -/
theorem updateTracker_getD_other (speed : Int) (tracker : List Int) (L : Nat)
    (t : Int) (k : Nat) (hkL : L ≠ k) :
    (updateTracker speed tracker L t).getD k 0 = tracker.getD k 0 := by
  unfold updateTracker
  rw [List.getD_eq_getElem?_getD, List.getElem?_set_ne hkL,
    ← List.getD_eq_getElem?_getD]

/-- With a non-negative dwell duration, every lane's `nextFreeAtMs` is
monotone along the run. -/
theorem updateTracker_getD_mono (speed : Int) (hs : 0 ≤ speed)
    (tracker : List Int) (L : Nat) (t : Int) (k : Nat) :
    tracker.getD k 0 ≤ (updateTracker speed tracker L t).getD k 0 := by
  by_cases hkL : L = k
  · subst hkL
    by_cases hk : L < tracker.length
    · rw [updateTracker_getD_self speed tracker L t hk]
      have hmax := le_max_right t (tracker.getD L 0)
      omega
    · unfold updateTracker
      rw [List.set_eq_of_length_le (by omega)]
  · rw [updateTracker_getD_other speed tracker L t k hkL]

/-- Unfolding: a comment without a `content?.text` field is skipped. -/
theorem runScheduler_cons_none (speed firstTime : Int) (tracker : List Int)
    (c : RawComment) (rest : List RawComment) (hc : c.text = none) :
    runScheduler speed firstTime tracker (c :: rest) =
      runScheduler speed firstTime tracker rest := by
  simp [runScheduler, hc]

/-- Unfolding: a comment with an empty message is skipped. -/
theorem runScheduler_cons_empty (speed firstTime : Int) (tracker : List Int)
    (c : RawComment) (rest : List RawComment) (hc : c.text = some "") :
    runScheduler speed firstTime tracker (c :: rest) =
      runScheduler speed firstTime tracker rest := by
  simp [runScheduler, hc]

/-- Unfolding: a comment with a non-empty message is scheduled on the
lane `selectLane` picks and the tracker is updated. -/
theorem runScheduler_cons_msg (speed firstTime : Int) (tracker : List Int)
    (c : RawComment) (rest : List RawComment) (msg : String)
    (hc : c.text = some msg) (hm : msg ≠ "") :
    runScheduler speed firstTime tracker (c :: rest) =
      ⟨selectLane tracker (c.createdAt - firstTime), c.createdAt - firstTime,
          c.createdAt - firstTime + speed, msg⟩ ::
        runScheduler speed firstTime
          (updateTracker speed tracker
            (selectLane tracker (c.createdAt - firstTime))
            (c.createdAt - firstTime)) rest := by
  simp [runScheduler, hc, hm]

/-- In a run without forced reuse, every emitted assignment starts no
earlier than the `nextFreeAtMs` its lane had when the run began. -/
theorem runScheduler_start_ge (speed firstTime : Int) (hs : 0 ≤ speed)
    (cs : List RawComment) :
    ∀ tracker : List Int,
      NoForcedReuse speed firstTime tracker cs = true →
      ∀ a ∈ runScheduler speed firstTime tracker cs,
        tracker.getD a.lane 0 ≤ a.displayStart := by
  induction cs with
  | nil =>
    intro tracker _ a ha
    simp [runScheduler] at ha
  | cons c rest ih =>
    intro tracker hnf a ha
    cases hc : c.text with
    | none =>
      rw [runScheduler_cons_none _ _ _ _ _ hc] at ha
      rw [noForcedReuse_cons_skip _ _ _ _ _ (Or.inl hc)] at hnf
      exact ih tracker hnf a ha
    | some msg =>
      by_cases hm : msg = ""
      · subst hm
        rw [runScheduler_cons_empty _ _ _ _ _ hc] at ha
        rw [noForcedReuse_cons_skip _ _ _ _ _ (Or.inr hc)] at hnf
        exact ih tracker hnf a ha
      · rw [runScheduler_cons_msg _ _ _ _ _ _ hc hm] at ha
        rw [noForcedReuse_cons_msg _ _ _ _ _ _ hc hm, Bool.and_eq_true] at hnf
        obtain ⟨hfree, hnf'⟩ := hnf
        obtain ⟨i, hi⟩ := Option.isSome_iff_exists.mp hfree
        have hselect : selectLane tracker (c.createdAt - firstTime) = i := by
          simp [selectLane, hi]
        rcases List.mem_cons.mp ha with rfl | ha'
        · obtain ⟨_, hle⟩ := freeScan_eq_some _ _ _ hi
          simpa [hselect] using hle
        · have := ih _ hnf' a ha'
          exact le_trans (updateTracker_getD_mono speed hs tracker _ _ a.lane) this

/-- In a run without forced reuse, assignments sharing a lane have
pairwise disjoint display intervals. -/
theorem runScheduler_pairwise (speed firstTime : Int) (hs : 0 ≤ speed)
    (cs : List RawComment) :
    ∀ tracker : List Int,
      NoForcedReuse speed firstTime tracker cs = true →
      (runScheduler speed firstTime tracker cs).Pairwise SameLaneDisjoint := by
  induction cs with
  | nil =>
    intro tracker _
    simp [runScheduler]
  | cons c rest ih =>
    intro tracker hnf
    cases hc : c.text with
    | none =>
      rw [runScheduler_cons_none _ _ _ _ _ hc]
      rw [noForcedReuse_cons_skip _ _ _ _ _ (Or.inl hc)] at hnf
      exact ih tracker hnf
    | some msg =>
      by_cases hm : msg = ""
      · subst hm
        rw [runScheduler_cons_empty _ _ _ _ _ hc]
        rw [noForcedReuse_cons_skip _ _ _ _ _ (Or.inr hc)] at hnf
        exact ih tracker hnf
      · rw [runScheduler_cons_msg _ _ _ _ _ _ hc hm]
        rw [noForcedReuse_cons_msg _ _ _ _ _ _ hc hm, Bool.and_eq_true] at hnf
        obtain ⟨hfree, hnf'⟩ := hnf
        obtain ⟨i, hi⟩ := Option.isSome_iff_exists.mp hfree
        have hselect : selectLane tracker (c.createdAt - firstTime) = i := by
          simp [selectLane, hi]
        obtain ⟨hilt, _⟩ := freeScan_eq_some _ _ _ hi
        refine List.Pairwise.cons ?_ (ih _ hnf')
        intro b hb hlane
        have hbstart := runScheduler_start_ge speed firstTime hs rest _ hnf' b hb
        have hself := updateTracker_getD_self speed tracker
          (selectLane tracker (c.createdAt - firstTime))
          (c.createdAt - firstTime) (by rwa [hselect])
        simp only at hlane
        rw [← hlane] at hbstart
        rw [hself] at hbstart
        refine Or.inl ?_
        simp only
        have := le_max_left (c.createdAt - firstTime)
          (tracker.getD (selectLane tracker (c.createdAt - firstTime)) 0)
        omega

/-! ## Claim theorems -/

/-- Claim C1, counterexample to the claim as stated: `generateEvents` does
not produce one event line per input event — a comment whose
`content?.text` is missing (or empty) is dropped: on a one-element input
list the scheduler emits zero `Dialogue` lines. -/
theorem c1_counterexample :
    (generateEvents ⟨6, 8000⟩ [⟨0, none⟩]).length = 0 ∧
    ([(⟨0, none⟩ : RawComment)]).length = 1 := by
  constructor <;> rfl

/-- Claim C1, amended: the scheduler produces exactly one `LaneAssignment`
per input event that carries a non-empty message, in input order and with
the event's own relative time and text (so no message-bearing event is
dropped, and none is duplicated); events without a message are skipped. -/
theorem c1_one_assignment_per_message_event
    (cfg : SchedCfg) (comments : List RawComment) :
    (generateEvents cfg comments).map (fun a => (a.displayStart, a.text)) =
      (comments.filter hasText).map
        (fun c => (c.createdAt - baseTime comments, c.text.getD "")) ∧
    (generateEvents cfg comments).length = (comments.filter hasText).length := by
  refine ⟨runScheduler_map_filter _ _ _ _, ?_⟩
  have h := congrArg List.length
    (runScheduler_map_filter cfg.speedMs (baseTime comments)
      (List.replicate cfg.maxLines 0) comments)
  simpa [generateEvents] using h

/-- Claim C2, counterexample to the claim as stated: the per-lane
non-overlap invariant fails under forced reuse.  With `maxLanes = 2`,
`speedMs = 8000` and events at `0, 100, 5000` ms (the spec's own
end-to-end scenario), the third event is forced onto lane 0 while lane
0's previous interval `[0, 8000)` is still active, overlapping
`[5000, 13000)`. -/
theorem c2_counterexample :
    ¬ (generateEvents ⟨2, 8000⟩
        [⟨0, some "a"⟩, ⟨100, some "b"⟩, ⟨5000, some "c"⟩]).Pairwise
          SameLaneDisjoint := by decide

/-- Claim C2, amended: in every scheduler run that never hits the
forced-reuse fallback (every event finds a lane with
`nextFreeAtMs ≤ displayStart`), assignments sharing a lane have pairwise
disjoint `[displayStart, displayEnd)` intervals; under forced reuse the
scheduler still assigns a lane but the intervals may overlap. -/
theorem c2_same_lane_disjoint_without_forced_reuse
    (cfg : SchedCfg) (comments : List RawComment) (hs : 0 ≤ cfg.speedMs)
    (hnf : NoForcedReuse cfg.speedMs (baseTime comments)
      (List.replicate cfg.maxLines 0) comments = true) :
    (generateEvents cfg comments).Pairwise SameLaneDisjoint :=
  runScheduler_pairwise _ _ hs _ _ hnf

/-- Witness for C2 at a concrete underloaded run. -/
theorem c2_witness :
    ((0 : Int) ≤ (8000 : Int) ∧
      NoForcedReuse 8000 (baseTime [⟨0, some "a"⟩, ⟨100, some "b"⟩])
        (List.replicate 2 0) [⟨0, some "a"⟩, ⟨100, some "b"⟩] = true) ∧
    (generateEvents ⟨2, 8000⟩
      [⟨0, some "a"⟩, ⟨100, some "b"⟩]).Pairwise SameLaneDisjoint :=
  ⟨⟨by decide, by decide⟩,
    c2_same_lane_disjoint_without_forced_reuse ⟨2, 8000⟩
      [⟨0, some "a"⟩, ⟨100, some "b"⟩] (by decide) (by decide)⟩

/-- Claim C3: whenever no lane is fully free (every lane's `nextFreeAtMs`
exceeds the event's `displayStart`), the scheduler's lane choice
`selectLane` is in range, carries the globally smallest `nextFreeAtMs`,
and every lower-indexed lane has a strictly larger `nextFreeAtMs`
(ties broken by lowest lane index); in particular, with `maxLanes = 2`,
`speedMs = 8000` and events at `0, 100, 5000` ms the emitted lanes are
`[0, 1, 0]` — the third event reuses lane 0. -/
theorem c3_forced_reuse_picks_soonest_lane :
    (∀ (tracker : List Int) (t : Int), 0 < tracker.length →
      (∀ k, k < tracker.length → t < tracker.getD k 0) →
      selectLane tracker t < tracker.length ∧
      (∀ k, k < tracker.length →
        tracker.getD (selectLane tracker t) 0 ≤ tracker.getD k 0) ∧
      (∀ k, k < selectLane tracker t →
        tracker.getD (selectLane tracker t) 0 < tracker.getD k 0)) ∧
    (generateEvents ⟨2, 8000⟩
        [⟨0, some "a"⟩, ⟨100, some "b"⟩, ⟨5000, some "c"⟩]).map Assignment.lane
      = [0, 1, 0] :=
  ⟨selectLane_no_free, by decide⟩

/-- Witness for C3: the tracker state `[8000, 8100]` reached before the
third event of the spec scenario, where no lane is free at `t = 5000`. -/
theorem c3_witness :
    ((0 < ([8000, 8100] : List Int).length) ∧
      (∀ k, k < ([8000, 8100] : List Int).length →
        (5000 : Int) < ([8000, 8100] : List Int).getD k 0)) ∧
    (selectLane [8000, 8100] 5000 < ([8000, 8100] : List Int).length ∧
      (∀ k, k < ([8000, 8100] : List Int).length →
        ([8000, 8100] : List Int).getD (selectLane [8000, 8100] 5000) 0 ≤
          ([8000, 8100] : List Int).getD k 0) ∧
      (∀ k, k < selectLane [8000, 8100] 5000 →
        ([8000, 8100] : List Int).getD (selectLane [8000, 8100] 5000) 0 <
          ([8000, 8100] : List Int).getD k 0)) :=
  ⟨⟨by decide, by decide⟩,
    c3_forced_reuse_picks_soonest_lane.1 [8000, 8100] 5000 (by decide) (by decide)⟩

/-- Claim C4: every scheduled event (message present and non-empty) is
emitted with `displayStart = timestamp - baseTime` on the lane chosen by
`selectLane`, and the occupancy tracker is updated by exactly
`nextFreeAtMs[L] := max(previous nextFreeAtMs[L], displayStart) + speedMs`
while every other lane is untouched — with no case split on whether the
lane was free or reused. -/
theorem c4_tracker_update_rule (speed firstTime : Int) (tracker : List Int)
    (c : RawComment) (rest : List RawComment) (msg : String)
    (hc : c.text = some msg) (hm : msg ≠ "") :
    runScheduler speed firstTime tracker (c :: rest) =
      ⟨selectLane tracker (c.createdAt - firstTime), c.createdAt - firstTime,
          c.createdAt - firstTime + speed, msg⟩ ::
        runScheduler speed firstTime
          (updateTracker speed tracker
            (selectLane tracker (c.createdAt - firstTime))
            (c.createdAt - firstTime)) rest ∧
    (selectLane tracker (c.createdAt - firstTime) < tracker.length →
      (updateTracker speed tracker
          (selectLane tracker (c.createdAt - firstTime))
          (c.createdAt - firstTime)).getD
        (selectLane tracker (c.createdAt - firstTime)) 0 =
      max (tracker.getD (selectLane tracker (c.createdAt - firstTime)) 0)
          (c.createdAt - firstTime) + speed) ∧
    ∀ k, k ≠ selectLane tracker (c.createdAt - firstTime) →
      (updateTracker speed tracker
          (selectLane tracker (c.createdAt - firstTime))
          (c.createdAt - firstTime)).getD k 0 = tracker.getD k 0 := by
  refine ⟨runScheduler_cons_msg _ _ _ _ _ _ hc hm, ?_, ?_⟩
  · intro h
    rw [updateTracker_getD_self _ _ _ _ h, max_comm]
  · intro k hk
    exact updateTracker_getD_other _ _ _ _ _ (Ne.symm hk)

/-- Witness for C4 at a forced-reuse step: the third event of the spec
scenario (tracker `[8000, 8100]`, event at `t = 5000`), whose lane 0 is
reused and whose tracker entry becomes `max(8000, 5000) + 8000`. -/
theorem c4_witness :
    ((⟨5000, some "c"⟩ : RawComment).text = some "c" ∧ ("c" : String) ≠ "") ∧
    (runScheduler 8000 0 [8000, 8100] [⟨5000, some "c"⟩] =
      ⟨selectLane [8000, 8100] 5000, 5000, 13000, "c"⟩ ::
        runScheduler 8000 0
          (updateTracker 8000 [8000, 8100] (selectLane [8000, 8100] 5000) 5000) [] ∧
      (selectLane [8000, 8100] 5000 < ([8000, 8100] : List Int).length →
        (updateTracker 8000 [8000, 8100]
            (selectLane [8000, 8100] 5000) 5000).getD
          (selectLane [8000, 8100] 5000) 0 =
        max (([8000, 8100] : List Int).getD (selectLane [8000, 8100] 5000) 0)
            5000 + 8000) ∧
      ∀ k, k ≠ selectLane [8000, 8100] 5000 →
        (updateTracker 8000 [8000, 8100]
            (selectLane [8000, 8100] 5000) 5000).getD k 0 =
          ([8000, 8100] : List Int).getD k 0) := by
  refine ⟨⟨rfl, by decide⟩, ?_⟩
  have h := c4_tracker_update_rule 8000 0 [8000, 8100] ⟨5000, some "c"⟩ [] "c"
    rfl (by decide)
  simpa using h

/-- Claim C5: `timeToAss` renders a non-negative millisecond offset as
`H:MM:SS.CC` — hours `t / 3600000` unbounded (not wrapped mod 24),
minutes `t / 60000 % 60`, seconds `t / 1000 % 60` and centiseconds
`t / 10 % 100` zero-padded to two digits, truncating (not rounding)
sub-centisecond remainders (`timeToAss t = timeToAss (t / 10 * 10)`);
in particular `timeToAss 0 = "0:00:00.00"`,
`timeToAss 61005 = "0:01:01.00"` and `timeToAss 3600000 = "1:00:00.00"`. -/
theorem c5_timeToAss_format (t : Nat) :
    timeToAss t =
      padStart (toString (t / 3600000)) 1 '0' ++ ":" ++
        padStart (toString (t / 60000 % 60)) 2 '0' ++ ":" ++
        padStart (toString (t / 1000 % 60)) 2 '0' ++ "." ++
        padStart (toString (t / 10 % 100)) 2 '0' ∧
    timeToAss t = timeToAss (t / 10 * 10) ∧
    timeToAss 0 = "0:00:00.00" ∧ timeToAss 61005 = "0:01:01.00" ∧
    timeToAss 3600000 = "1:00:00.00" := by
  refine ⟨?_, ?_, by decide, by decide, by decide⟩
  · have h1 : t / 10 / 360000 = t / 3600000 := by omega
    have h2 : t / 10 % 360000 / 6000 = t / 60000 % 60 := by omega
    have h3 : t / 10 % 6000 / 100 = t / 1000 % 60 := by omega
    simp only [timeToAss, h1, h2, h3]
  · have h4 : t / 10 * 10 / 10 = t / 10 := by omega
    simp only [timeToAss, h4]

/-- Claim C6: the constructor's lane count equals the clamped floor
`max 1 ⌊(displayAreaRatio * 1080) / (24 + lineSpacing * 24)⌋` (frame
height 1080, font size 24), hence the floor is used unless it is below
`1`, in which case the value is clamped to `1`; `maxLanes` is therefore
always at least `1`. -/
theorem c6_maxLanes_formula_and_clamp (r s : ℚ) :
    assMaxLines r s = max 1 ⌊r * 1080 / (24 + s * 24)⌋ ∧
    1 ≤ assMaxLines r s := by
  have e : (1080 : ℚ) * r / (24 + 24 * s) = r * 1080 / (24 + s * 24) := by
    ring_nf
  have h : assMaxLines r s = max 1 ⌊r * 1080 / (24 + s * 24)⌋ := by
    simp only [assMaxLines, ratFloor_eq_intFloor, e]
    rcases le_or_lt 1 ⌊r * 1080 / (24 + s * 24)⌋ with hle | hlt
    · rw [if_neg (not_lt.mpr hle), max_eq_right hle]
    · rw [if_pos hlt, max_eq_left hlt.le]
  exact ⟨h, h ▸ le_max_left _ _⟩

/-! ## Helper lemmas for the resource dedup -/

/-- Lemma: `findUrl` misses exactly when the key is absent. -/
theorem findUrl_eq_none (m : List (String × String)) (uid : String) :
    findUrl m uid = none ↔ uid ∉ m.map Prod.fst := by
  induction m with
  | nil => simp [findUrl]
  | cons p rest ih =>
    obtain ⟨k, v⟩ := p
    by_cases hk : k = uid
    · subst hk
      simp [findUrl]
    · simp [findUrl, hk, ih, Ne.symm hk]

/-- Lemma: `findUrl` over an appended singleton. -/
theorem findUrl_append_singleton (m : List (String × String))
    (k v : String) (uid : String) :
    findUrl (m ++ [(k, v)]) uid =
      match findUrl m uid with
      | some w => some w
      | none => if k = uid then some v else none := by
  induction m with
  | nil => simp [findUrl]
  | cons p rest ih =>
    obtain ⟨k', v'⟩ := p
    by_cases hk : k' = uid
    · simp [findUrl, hk]
    · simp [findUrl, hk, ih]

/-- A found entry belongs to the list. -/
theorem findUrl_of_mem_nodup (m : List (String × String))
    (h : (m.map Prod.fst).Nodup) (uid url : String)
    (hm : (uid, url) ∈ m) : findUrl m uid = some url := by
  induction m with
  | nil => simp at hm
  | cons p rest ih =>
    obtain ⟨k, v⟩ := p
    rcases List.mem_cons.mp hm with heq | hmem
    · injection heq with h1 h2
      subst h1
      subst h2
      simp [findUrl]
    · have hk : k ≠ uid := by
        intro hk
        subst hk
        have : k ∈ rest.map Prod.fst :=
          List.mem_map.mpr ⟨(k, url), hmem, rfl⟩
        exact (List.nodup_cons.mp (by simpa using h)).1 this
      simp only [findUrl, if_neg hk]
      exact ih (List.nodup_cons.mp (by simpa using h)).2 hmem

/-- Lemma: `insertAvatar` preserves key uniqueness. -/
theorem insertAvatar_keys_nodup (m : List (String × String)) (c : CommentU)
    (h : (m.map Prod.fst).Nodup) :
    ((insertAvatar m c).map Prod.fst).Nodup := by
  unfold insertAvatar
  cases hu : c.profileImageUrl with
  | none => exact h
  | some u =>
    by_cases he : u = ""
    · simpa [he] using h
    · by_cases hf : (findUrl m c.user_id).isSome
      · simpa [he, hf] using h
      · have habs : c.user_id ∉ m.map Prod.fst :=
          (findUrl_eq_none m c.user_id).mp
            (Option.not_isSome_iff_eq_none.mp hf)
        simp only [if_neg he, if_neg hf, List.map_append]
        refine List.Nodup.append h (by simp) ?_
        intro x hx1 hx2
        simp at hx2
        subst hx2
        exact habs hx1

/-- The avatar map has pairwise distinct user ids. -/
theorem collectAvatarUrls_keys_nodup (comments : List CommentU) :
    ((collectAvatarUrls comments).map Prod.fst).Nodup := by
  suffices h : ∀ (cs : List CommentU) (m : List (String × String)),
      (m.map Prod.fst).Nodup → ((cs.foldl insertAvatar m).map Prod.fst).Nodup by
    exact h comments [] (by simp)
  intro cs
  induction cs with
  | nil => intro m hm; simpa using hm
  | cons c rest ih =>
    intro m hm
    exact ih _ (insertAvatar_keys_nodup m c hm)

/-- The avatar map resolves each user to the URL of their earliest
comment carrying one. -/
theorem collectAvatarUrls_findUrl (comments : List CommentU) (uid : String) :
    findUrl (collectAvatarUrls comments) uid = firstAvatarUrl comments uid := by
  suffices h : ∀ (cs : List CommentU) (m : List (String × String)),
      findUrl (cs.foldl insertAvatar m) uid =
        match findUrl m uid with
        | some w => some w
        | none => firstAvatarUrl cs uid by
    simpa [collectAvatarUrls, findUrl] using h comments []
  intro cs
  induction cs with
  | nil =>
    intro m
    cases h : findUrl m uid <;> simp [firstAvatarUrl, h]
  | cons c rest ih =>
    intro m
    rw [List.foldl_cons, ih]
    cases hu : c.profileImageUrl with
    | none =>
      have hins : insertAvatar m c = m := by simp [insertAvatar, hu]
      have hfa : firstAvatarUrl (c :: rest) uid = firstAvatarUrl rest uid := by
        simp [firstAvatarUrl, hasAvatarUrl, hu]
      rw [hins, hfa]
    | some u =>
      by_cases he : u = ""
      · subst he
        have hins : insertAvatar m c = m := by simp [insertAvatar, hu]
        have hfa : firstAvatarUrl (c :: rest) uid = firstAvatarUrl rest uid := by
          simp [firstAvatarUrl, hasAvatarUrl, hu]
        rw [hins, hfa]
      · have hhas : hasAvatarUrl c = true := by simp [hasAvatarUrl, hu, he]
        by_cases hf : (findUrl m c.user_id).isSome
        · have hins : insertAvatar m c = m := by simp [insertAvatar, hu, he, hf]
          rw [hins]
          by_cases huid : c.user_id = uid
          · obtain ⟨w, hw⟩ := Option.isSome_iff_exists.mp hf
            rw [huid] at hw
            rw [hw]
          · have hfa : firstAvatarUrl (c :: rest) uid = firstAvatarUrl rest uid := by
              simp [firstAvatarUrl, huid]
            rw [hfa]
        · have hins : insertAvatar m c = m ++ [(c.user_id, u)] := by
            simp [insertAvatar, hu, he, hf]
          rw [hins, findUrl_append_singleton]
          have hm : findUrl m c.user_id = none :=
            Option.not_isSome_iff_eq_none.mp hf
          by_cases huid : c.user_id = uid
          · subst huid
            rw [hm]
            have hfa : firstAvatarUrl (c :: rest) c.user_id = some u := by
              simp [firstAvatarUrl, hhas, hu]
            simp [hfa]
          · have hfa : firstAvatarUrl (c :: rest) uid = firstAvatarUrl rest uid := by
              simp [firstAvatarUrl, huid]
            rw [hfa]
            cases hmu : findUrl m uid <;> simp [huid]

/-- Membership in `addUrl`. -/
theorem mem_addUrl (s : List String) (u x : String) :
    x ∈ addUrl s u ↔ x ∈ s ∨ x = u := by
  unfold addUrl
  by_cases h : u ∈ s
  · simp only [if_pos h]
    constructor
    · exact Or.inl
    · rintro (hx | rfl)
      · exact hx
      · exact h
  · simp [if_neg h]

/-- Lemma: `addUrl` preserves duplicate-freedom. -/
theorem addUrl_nodup (s : List String) (u : String) (h : s.Nodup) :
    (addUrl s u).Nodup := by
  unfold addUrl
  by_cases hu : u ∈ s
  · simpa [hu]
  · rw [if_neg hu]
    refine List.Nodup.append h (by simp) ?_
    intro x hx1 hx2
    simp at hx2
    subst hx2
    exact hu hx1

/-- The collected resource-URL set is duplicate-free. -/
theorem collectResourceUrls_nodup (urls : List String) :
    (collectResourceUrls urls).Nodup := by
  suffices h : ∀ (us : List String) (s : List String),
      s.Nodup → (us.foldl addUrl s).Nodup by
    exact h urls [] (by simp)
  intro us
  induction us with
  | nil => intro s hs; simpa using hs
  | cons u rest ih =>
    intro s hs
    exact ih _ (addUrl_nodup s u hs)

/-- The collected resource-URL set has exactly the input's members. -/
theorem mem_collectResourceUrls (urls : List String) (x : String) :
    x ∈ collectResourceUrls urls ↔ x ∈ urls := by
  suffices h : ∀ (us : List String) (s : List String),
      x ∈ us.foldl addUrl s ↔ x ∈ s ∨ x ∈ us by
    simpa [collectResourceUrls] using h urls []
  intro us
  induction us with
  | nil => intro s; simp
  | cons u rest ih =>
    intro s
    rw [List.foldl_cons, ih, mem_addUrl]
    constructor
    · rintro ((hx | rfl) | hx)
      · exact Or.inl hx
      · exact Or.inr (List.mem_cons_self _ _)
      · exact Or.inr (List.mem_cons_of_mem _ hx)
    · rintro (hx | hx)
      · exact Or.inl (Or.inl hx)
      · rcases List.mem_cons.mp hx with rfl | hx'
        · exact Or.inl (Or.inr rfl)
        · exact Or.inr hx'

/-! ## Helper lemmas for retry and the batch downloads -/

/-- Lemma: `retry` on an always-failing operation: with `n ≥ 1` attempts
remaining and the next attempt index `i`, it makes exactly `n` attempts,
sleeps `n - 1` times between them, and rethrows the last attempt's
error. -/
theorem retryAux_all_fail {E A : Type} (fn : Nat → Except E A) (err : Nat → E)
    (hfail : ∀ i, fn i = Except.error (err i)) :
    ∀ (n i : Nat), 1 ≤ n →
      retryAux fn n i = (Except.error (some (err (i + n - 1))), n, n - 1) := by
  intro n
  induction n with
  | zero => intro i h; exact absurd h (by decide)
  | succ m ih =>
    intro i _
    cases hfi : fn i with
    | ok a =>
      have h2 := hfail i
      rw [hfi] at h2
      exact Except.noConfusion h2
    | error e =>
      have h2 := hfail i
      rw [hfi] at h2
      injection h2 with he
      subst he
      rcases Nat.eq_zero_or_pos m with rfl | hm
      · rw [retryAux, hfi]
        rfl
      · obtain ⟨m', rfl⟩ : ∃ m', m = m' + 1 := ⟨m - 1, by omega⟩
        rw [retryAux, hfi]
        show ((retryAux fn (m' + 1) (i + 1)).1,
            (retryAux fn (m' + 1) (i + 1)).2.1 + 1,
            (retryAux fn (m' + 1) (i + 1)).2.2 + 1) = _
        rw [ih (i + 1) (by omega)]
        have harg : i + 1 + (m' + 1) - 1 = i + (m' + 1 + 1) - 1 := by omega
        rw [harg]
        rfl

/-- The sequential download loop reaches a terminal tally for every URL:
successes and failures sum to the number of URLs processed. -/
theorem downloadResourcesTally_total {E : Type} (outcome : String → Except E Unit)
    (urls : List String) :
    (downloadResourcesTally outcome urls).1 +
      (downloadResourcesTally outcome urls).2 = urls.length := by
  suffices h : ∀ (us : List String) (init : Nat × Nat),
      (us.foldl
        (fun sf u =>
          match outcome u with
          | Except.ok _ => (sf.1 + 1, sf.2)
          | Except.error _ => (sf.1, sf.2 + 1)) init).1 +
      (us.foldl
        (fun sf u =>
          match outcome u with
          | Except.ok _ => (sf.1 + 1, sf.2)
          | Except.error _ => (sf.1, sf.2 + 1)) init).2 =
        init.1 + init.2 + us.length by
    simpa [downloadResourcesTally] using h urls (0, 0)
  intro us
  induction us with
  | nil => intro init; simp
  | cons u rest ih =>
    intro init
    simp only [List.foldl_cons]
    rw [ih]
    cases h : outcome u <;> simp [h] <;> omega

/-- A batch whose jobs all succeed reports every job as a success. -/
theorem submitAll_all_ok {E : Type} (op : String → Except E Unit)
    (urls : List String) (h : ∀ u ∈ urls, op u = Except.ok ()) :
    (submitAll op urls).filter (fun j => !j.success) = [] ∧
    ((submitAll op urls).filter (fun j => j.success)).length = urls.length := by
  induction urls with
  | nil => simp [submitAll]
  | cons u rest ih =>
    have hu : op u = Except.ok () := h u (List.mem_cons_self _ _)
    obtain ⟨h1, h2⟩ := ih fun x hx => h x (List.mem_cons_of_mem _ hx)
    constructor
    · simpa [submitAll, hu] using h1
    · simpa [submitAll, hu] using h2

/-- A batch with exactly one failing job reports that job as its only
failure and every other job as a success. -/
theorem submitAll_single_failure {E : Type} (op : String → Except E Unit) :
    ∀ (urls : List String) (k : Nat) (hk : k < urls.length) (e : E),
      op (urls.get ⟨k, hk⟩) = Except.error e →
      (∀ i, ∀ hi : i < urls.length, i ≠ k →
        op (urls.get ⟨i, hi⟩) = Except.ok ()) →
      (submitAll op urls).filter (fun j => !j.success) =
        [⟨urls.get ⟨k, hk⟩, false⟩] ∧
      ((submitAll op urls).filter (fun j => j.success)).length =
        urls.length - 1 := by
  intro urls
  induction urls with
  | nil => intro k hk; exact absurd hk (Nat.not_lt_zero k)
  | cons u rest ih =>
    intro k hk e hfail hok
    match k with
    | 0 =>
      have hu : op u = Except.error e := by simpa using hfail
      have hrest : ∀ x ∈ rest, op x = Except.ok () := by
        intro x hx
        obtain ⟨⟨i, hi⟩, rfl⟩ := List.mem_iff_get.mp hx
        have := hok (i + 1) (by simpa using Nat.succ_lt_succ hi) (by omega)
        simpa using this
      obtain ⟨h1, h2⟩ := submitAll_all_ok op rest hrest
      constructor
      · simpa [submitAll, hu] using h1
      · simpa [submitAll, hu] using h2
    | k' + 1 =>
      have hu : op u = Except.ok () := by
        have := hok 0 (by omega) (by omega)
        simpa using this
      have hk' : k' < rest.length := by simpa using hk
      have hfail' : op (rest.get ⟨k', hk'⟩) = Except.error e := by
        simpa using hfail
      have hok' : ∀ i, ∀ hi : i < rest.length, i ≠ k' →
          op (rest.get ⟨i, hi⟩) = Except.ok () := by
        intro i hi hik
        have := hok (i + 1) (by simpa using Nat.succ_lt_succ hi) (by omega)
        simpa using this
      obtain ⟨h1, h2⟩ := ih k' hk' e hfail' hok'
      constructor
      · simpa [submitAll, hu] using h1
      · have hlen : 1 ≤ rest.length := by omega
        simp only [submitAll, List.map_cons, hu, List.filter_cons] at h2 ⊢
        simp at h2 ⊢
        omega

/-- Claim C7: per distinct identifier, at most one download job is ever
issued — the avatar map keys are duplicate-free (so `downloadAvatars`
issues at most one fetch job per `user_id`), and the resource-URL set is
duplicate-free while retaining exactly the submitted identifiers (so
`downloadResources` issues at most one fetch job per distinct URL, and
every submitted URL gets its job). -/
theorem c7_at_most_one_fetch_per_identifier
    (comments : List CommentU) (urls : List String) :
    (∀ uid : String, ((collectAvatarUrls comments).map Prod.fst).count uid ≤ 1) ∧
    (∀ u : String, (collectResourceUrls urls).count u ≤ 1) ∧
    ∀ u : String, u ∈ collectResourceUrls urls ↔ u ∈ urls := by
  refine ⟨?_, ?_, mem_collectResourceUrls urls⟩
  · intro uid
    exact List.nodup_iff_count_le_one.mp (collectAvatarUrls_keys_nodup comments) uid
  · intro u
    exact List.nodup_iff_count_le_one.mp (collectResourceUrls_nodup urls) u

/-- Claim C8: an always-failing job is attempted `maxRetries` times in
total with a `delay(retryDelay)` sleep between consecutive attempts
(hence `maxRetries - 1` sleeps), and `retry` then rethrows the error of
the last attempt; the surrounding `downloadResources` loop catches it
and tallies a failure, continuing with the remaining URLs, so every URL
reaches a terminal success/failure tally and the run is not aborted. -/
theorem c8_retry_failure_budget {E A : Type} (fn : Nat → Except E A)
    (err : Nat → E) (maxRetries : Nat)
    (hfail : ∀ i, fn i = Except.error (err i)) (hpos : 1 ≤ maxRetries) :
    retryModel fn maxRetries =
      (Except.error (some (err (maxRetries - 1))), maxRetries, maxRetries - 1) ∧
    ∀ (F : Type) (outcome : String → Except F Unit) (urls : List String),
      (downloadResourcesTally outcome urls).1 +
        (downloadResourcesTally outcome urls).2 = urls.length := by
  constructor
  · have h := retryAux_all_fail fn err hfail maxRetries 0 hpos
    simpa [retryModel] using h
  · intro F outcome urls
    exact downloadResourcesTally_total outcome urls

/-- Witness for C8: three attempts, all failing with error `7`: outcome
`failed 7`, 3 attempts, 2 inter-attempt delays. -/
theorem c8_witness :
    ((∀ i : Nat, (fun _ : Nat => (Except.error 7 : Except Nat Unit)) i =
        Except.error 7) ∧ 1 ≤ 3) ∧
    retryModel (fun _ : Nat => (Except.error 7 : Except Nat Unit)) 3 =
      (Except.error (some 7), 3, 2) :=
  ⟨⟨fun _ => rfl, by decide⟩,
    (c8_retry_failure_budget (fun _ : Nat => Except.error 7) (fun _ : Nat => 7) 3
      (fun _ => rfl) (by decide)).1⟩

/-- Claim C9: a batch of `N` jobs in which exactly job `k` fails still
yields one terminal outcome per job (`submitAll` is total and
length-preserving — nothing throws), the single failure is reported as
job `k`'s own outcome, and the other `N - 1` jobs are reported as
successes. -/
theorem c9_partial_failure_isolation {E : Type} (op : String → Except E Unit)
    (urls : List String) (k : Nat) (hk : k < urls.length) (e : E)
    (hfail : op (urls.get ⟨k, hk⟩) = Except.error e)
    (hok : ∀ i, ∀ hi : i < urls.length, i ≠ k →
      op (urls.get ⟨i, hi⟩) = Except.ok ()) :
    (submitAll op urls).length = urls.length ∧
    (submitAll op urls).filter (fun j => !j.success) =
      [⟨urls.get ⟨k, hk⟩, false⟩] ∧
    ((submitAll op urls).filter (fun j => j.success)).length =
      urls.length - 1 := by
  refine ⟨by simp [submitAll], ?_, ?_⟩
  · exact (submitAll_single_failure op urls k hk e hfail hok).1
  · exact (submitAll_single_failure op urls k hk e hfail hok).2

/-- Witness for C9: three jobs of which the middle one fails. -/
theorem c9_witness :
    ((fun u => if u = "b" then (Except.error 0 : Except Nat Unit)
        else Except.ok ())
      (["a", "b", "c"].get ⟨1, by decide⟩) = Except.error 0 ∧
      (1 : Nat) < (["a", "b", "c"] : List String).length) ∧
    (submitAll
        (fun u => if u = "b" then (Except.error 0 : Except Nat Unit)
          else Except.ok ())
        ["a", "b", "c"]).filter (fun j => !j.success) =
      [⟨"b", false⟩] := by
  refine ⟨⟨rfl, by decide⟩, ?_⟩
  have h := (c9_partial_failure_isolation
    (fun u => if u = "b" then (Except.error 0 : Except Nat Unit)
      else Except.ok ())
    ["a", "b", "c"] 1 (by decide) 0 rfl ?_).2.1
  · simpa using h
  · intro i hi hik
    match i with
    | 0 => rfl
    | 1 => exact absurd rfl hik
    | 2 => rfl

/-- Claim C10: avatar fetches are deduplicated per author with the first
URL winning: the job list has at most one entry per `user_id`, each
user's recorded URL is the `profileImageUrl` of their earliest comment
carrying one (so a later, different URL of the same user is never
fetched), and each job saves to `{userId}.jpg`. -/
theorem c10_avatar_dedup_first_url_wins (comments : List CommentU) (uid : String) :
    ((avatarJobs comments).map (fun j => j.1)).count uid ≤ 1 ∧
    findUrl (collectAvatarUrls comments) uid = firstAvatarUrl comments uid ∧
    (∀ url : String, (uid, url) ∈ collectAvatarUrls comments →
      firstAvatarUrl comments uid = some url) ∧
    ∀ j ∈ avatarJobs comments, j.2.2 = j.1 ++ ".jpg" := by
  refine ⟨?_, collectAvatarUrls_findUrl comments uid, ?_, ?_⟩
  · have hmap : (avatarJobs comments).map (fun j => j.1) =
        (collectAvatarUrls comments).map Prod.fst := by
      simp [avatarJobs]
    rw [hmap]
    exact List.nodup_iff_count_le_one.mp (collectAvatarUrls_keys_nodup comments) uid
  · intro url hmem
    rw [← collectAvatarUrls_findUrl]
    exact findUrl_of_mem_nodup _ (collectAvatarUrls_keys_nodup comments) _ _ hmem
  · intro j hj
    simp only [avatarJobs, List.mem_map] at hj
    obtain ⟨e, _, rfl⟩ := hj
    rfl

/-- Witness for C10: a user with two comments carrying different URLs —
the first URL is the one recorded. -/
theorem c10_witness :
    ("u1", "A") ∈ collectAvatarUrls [⟨"u1", some "A"⟩, ⟨"u1", some "B"⟩] ∧
    firstAvatarUrl [⟨"u1", some "A"⟩, ⟨"u1", some "B"⟩] "u1" = some "A" :=
  ⟨by decide,
    (c10_avatar_dedup_first_url_wins
      [⟨"u1", some "A"⟩, ⟨"u1", some "B"⟩] "u1").2.2.1 "A" (by decide)⟩

end ZanD
